import Mathlib

/-!
Verification development for the NLL type/region relation engine
(src/src/librustc/infer/nll_relate/mod.rs).

The engine is embedded shallowly: types and regions become inductive trees,
the mutable `TypeRelating` / `TypeGeneralizer` state becomes an explicit
`RelState` threaded through every operation, and the recursive relation is a
fueled interpreter (`engine`).  Rust `Err(TypeError::Mismatch)` becomes
`RRes.err` (the state survives, as the mutated `self` does in Rust);
`bug!` / `assert!` / index panics become `RRes.fatal code` (the state is
lost, as with an unwinding panic); running out of fuel is the model-only
outcome `RRes.fuelOut`.
-/

namespace Nll

/-- Variances, as in `ty::Variance`. -/
inductive Variance where
  | covariant
  | contravariant
  | invariant
  | bivariant
deriving DecidableEq, Repr

/-- Variance composition `ty::Variance::xform`. -/
def Variance.xform : Variance → Variance → Variance
  | .invariant, _ => .invariant
  | .bivariant, _ => .bivariant
  | .covariant, v => v
  | .contravariant, .covariant => .contravariant
  | .contravariant, .contravariant => .covariant
  | .contravariant, .invariant => .invariant
  | .contravariant, .bivariant => .bivariant

/-- `TypeRelating::ambient_covariance`. -/
def ambientCovariance : Variance → Bool
  | .covariant => true
  | .invariant => true
  | .contravariant => false
  | .bivariant => false

/-- `TypeRelating::ambient_contravariance`. -/
def ambientContravariance : Variance → Bool
  | .contravariant => true
  | .invariant => true
  | .covariant => false
  | .bivariant => false

/-- Regions (`ty::Region`): late-bound (debruijn index + name), free,
existential inference region variable, placeholder (universe + name). -/
inductive Region where
  | reLateBound (debruijn : Nat) (name : Nat)
  | reFree (n : Nat)
  | reVar (n : Nat)
  | rePlaceholder (uni : Nat) (name : Nat)
deriving DecidableEq, Repr

/-- Types.  `tvar` is `ty::Infer(ty::TyVar)`, `intVar`/`floatVar` are the
integral/floating inference variables, `base` is an opaque nullary
constructor (structurally matched by the external relation), `proj` is a
projection keyed by an item id and a receiver type, `placeholder` is
`ty::Placeholder`, `ref` is an immutable reference (region + pointee, both
covariant), and `fnPtr` is a `for<..> fn(input) -> output` type whose
implicit binder binds the late-bound regions of its body. -/
inductive Ty where
  | tvar (vid : Nat)
  | intVar (n : Nat)
  | floatVar (n : Nat)
  | base (n : Nat)
  | proj (item : Nat) (receiver : Ty)
  | placeholder (uni : Nat) (name : Nat)
  | ref (r : Region) (pointee : Ty)
  | fnPtr (input : Ty) (output : Ty)
deriving DecidableEq, Repr

/-- A `BoundRegionScope`: map from bound-region name to instantiated region,
kept in first-encounter order (`FxHashMap` entry/or_insert discipline). -/
abbrev Scope := List (Nat × Region)

/-- One entry of the inference context's variable table.  `eqRoot` is the
union-find root under equality unification, `subRoot` the root of the wider
subtyping grouping, `value` the known value (if instantiated), `uni` the
universe the variable was created in.  Roots are kept fully normalized:
every record stores its class representative directly. -/
structure VarRecord where
  eqRoot : Nat
  subRoot : Nat
  value : Option Ty
  uni : Nat
deriving DecidableEq, Repr

/-- The full mutable state visible to the engine: the inference context's
variable table, the fresh-id counters behind the delegate, the delegate's
write-only outputs (`outlives`, `goals`), and the `TypeRelating` fields
`ambient_variance`, `a_scopes`, `b_scopes`. -/
structure RelState where
  varTable : List VarRecord
  nextRegionVar : Nat
  nextUniverse : Nat
  outlives : List (Region × Region)
  goals : List (Ty × Ty)
  ambient : Variance
  aScopes : List Scope
  bScopes : List Scope
deriving DecidableEq, Repr

/-- Result of an engine operation.  `err` is `Err(TypeError::Mismatch)`
with the mutated state; `fatal code` is a `bug!`/`assert!`/panic abort
(codes: 0 = inference variable on the RHS under the forbid policy,
1 = inference variable met by the generalizer under the forbid policy,
2 = the `assert!(!generalized_ty.has_infer_types())` failure,
3 = bound-region lookup panic, 4 = `probe_ty_var(..).unwrap_err()` panic,
5 = unreachable variable arm of the external structural relation);
`fuelOut` is the model-only out-of-fuel outcome. -/
inductive RRes (α : Type) where
  | ok (v : α) (s : RelState)
  | err (s : RelState)
  | fatal (code : Nat)
  | fuelOut
deriving DecidableEq, Repr

/-- `type_variables.root_var`: the equality union-find representative. -/
def rootVar (s : RelState) (v : Nat) : Nat :=
  match s.varTable.get? v with
  | some rec => rec.eqRoot
  | none => v

/-- `type_variables.sub_root_var`: the subtyping-grouping representative. -/
def subRootVar (s : RelState) (v : Nat) : Nat :=
  match s.varTable.get? v with
  | some rec => rec.subRoot
  | none => v

/-- `type_variables.probe`: the known value of a variable's root. -/
def probe (s : RelState) (v : Nat) : Option Ty :=
  match s.varTable.get? (rootVar s v) with
  | some rec => rec.value
  | none => none

/-- `type_variables.new_var`: allocate a fresh, self-rooted, valueless
variable in the given universe. -/
def newTyVar (uni : Nat) (s : RelState) : Nat × RelState :=
  let n := s.varTable.length
  (n, { s with varTable := s.varTable ++ [⟨n, n, none, uni⟩] })

/-- `type_variables.equate x y`: union the equality classes of `x` and `y`
(class of `y` joins the root of `x`) and likewise the subtyping classes. -/
def equate (s : RelState) (x y : Nat) : RelState :=
  let rx := rootVar s x
  let ry := rootVar s y
  let sx := subRootVar s x
  let sy := subRootVar s y
  { s with varTable := s.varTable.map fun rec =>
      { rec with
        eqRoot := if rec.eqRoot = ry then rx else rec.eqRoot
        subRoot := if rec.subRoot = sy then sx else rec.subRoot } }

/-- `type_variables.instantiate`: record a value for the variable's root. -/
def instantiate (s : RelState) (v : Nat) (t : Ty) : RelState :=
  let r := rootVar s v
  match s.varTable.get? r with
  | some rec => { s with varTable := s.varTable.set r { rec with value := some t } }
  | none => s

/-- `InferCtxt::shallow_resolve`, restricted to type variables: chase the
chain of known values at the top of the type.  The fuel bound
`varTable.length + 1` suffices for every well-formed table. -/
def shallowResolveGo (s : RelState) : Nat → Ty → Ty
  | 0, t => t
  | fuel + 1, t =>
    match t with
    | .tvar v =>
      match probe s v with
      | some u => shallowResolveGo s fuel u
      | none => .tvar v
    | t => t

/-- Shallow resolution entry point. -/
def shallowResolve (s : RelState) (t : Ty) : Ty :=
  shallowResolveGo s (s.varTable.length + 1) t

/-- `TypeFoldable::has_infer_types`: does the type contain any type-level
inference variable (type, integral or floating variable)? -/
def hasInferTypes : Ty → Bool
  | .tvar _ => true
  | .intVar _ => true
  | .floatVar _ => true
  | .base _ => false
  | .placeholder _ _ => false
  | .proj _ receiver => hasInferTypes receiver
  | .ref _ t => hasInferTypes t
  | .fnPtr i o => hasInferTypes i || hasInferTypes o

/-- Normalization strategy of the delegate. -/
inductive NormalizationStrategy where
  | lazy
  | eager
deriving DecidableEq, Repr

/-- The two static policy flags of `TypeRelatingDelegate`. -/
structure Policy where
  normalization : NormalizationStrategy
  forbidInferenceVars : Bool

/-- Append one outlives constraint (`delegate.push_outlives(sup, sub)`,
stored as the pair `(sup, sub)`). -/
def pushOutlives (sup sub : Region) (s : RelState) : RelState :=
  { s with outlives := s.outlives ++ [(sup, sub)] }

/-- Append one deferred `ProjectionEq` goal, stored as the pair
(projection, value). -/
def pushGoal (g : Ty × Ty) (s : RelState) : RelState :=
  { s with goals := s.goals ++ [g] }

/-- `TypeRelating::relate_projection_ty`.  When the value is itself a
projection the code allocates a fresh variable and recursively relates both
projections against it; those recursive calls always land in the
non-projection arm (a variable is not a projection), so they are inlined
here.  The fresh variable is modelled as allocated in the root universe. -/
def relateProjectionTy (item : Nat) (receiver : Ty) (valueTy : Ty) (s : RelState) :
    Ty × RelState :=
  match valueTy with
  | .proj item2 receiver2 =>
    let (u, s1) := newTyVar 0 s
    let s2 := pushGoal (.proj item receiver, .tvar u) s1
    let s3 := pushGoal (.proj item2 receiver2, .tvar u) s2
    (.tvar u, s3)
  | _ => (valueTy, pushGoal (.proj item receiver, valueTy) s)

/-- `TypeRelating::replace_bound_region` together with
`lookup_bound_region`, at `first_free_index = ty::INNERMOST` (the only way
the relation engine calls it).  `none` models the Rust index/key panic on
an unresolvable bound region. -/
def replaceBoundRegion (r : Region) (scopes : List Scope) : Option Region :=
  match r with
  | .reLateBound d name =>
    if d < scopes.length then
      match scopes.get? (scopes.length - d - 1) with
      | some scope => scope.lookup name
      | none => none
    else none
  | r => some r

/-- `TypeRelating::regions`: resolve both sides through their own scope
stacks, emit the variance-directed outlives constraints, return the left
input. -/
def relateRegions (a b : Region) (s : RelState) : RRes Region :=
  match replaceBoundRegion a s.aScopes, replaceBoundRegion b s.bScopes with
  | some va, some vb =>
    let s1 := if ambientCovariance s.ambient then pushOutlives vb va s else s
    let s2 := if ambientContravariance s1.ambient then pushOutlives va vb s1 else s1
    .ok a s2
  | _, _ => .fatal 3

/-- The accumulator of the `ScopeInstantiator` visit: the scope built so
far, the lazily created universe of the universal case, and the delegate
state. -/
structure ScopeAcc where
  scope : Scope
  lazyUniverse : Option Nat
  st : RelState

/-- The `next_region` closure of `TypeRelating::create_scope`, fused with
the `or_insert` of the visitor: on the first encounter of a name, mint a
placeholder in the lazily created universe (universal case) or a fresh
existential region variable. -/
def scopeInsert (uq : Bool) (name : Nat) (acc : ScopeAcc) : ScopeAcc :=
  match acc.scope.lookup name with
  | some _ => acc
  | none =>
    if uq then
      match acc.lazyUniverse with
      | some u => { acc with scope := acc.scope ++ [(name, .rePlaceholder u name)] }
      | none =>
        let u := acc.st.nextUniverse
        { scope := acc.scope ++ [(name, .rePlaceholder u name)]
          lazyUniverse := some u
          st := { acc.st with nextUniverse := u + 1 } }
    else
      { acc with
        scope := acc.scope ++ [(name, .reVar acc.st.nextRegionVar)]
        st := { acc.st with nextRegionVar := acc.st.nextRegionVar + 1 } }

/-- `ScopeInstantiator::visit_region`. -/
def scopeVisitR (uq : Bool) (target : Nat) (r : Region) (acc : ScopeAcc) : ScopeAcc :=
  match r with
  | .reLateBound d name => if d = target then scopeInsert uq name acc else acc
  | _ => acc

/-- `ScopeInstantiator` type traversal: collect bound regions at the target
binder depth, shifting the target under nested binders, in field order. -/
def scopeVisitTy (uq : Bool) : Nat → Ty → ScopeAcc → ScopeAcc
  | _, .tvar _, acc => acc
  | _, .intVar _, acc => acc
  | _, .floatVar _, acc => acc
  | _, .base _, acc => acc
  | _, .placeholder _ _, acc => acc
  | target, .proj _ receiver, acc => scopeVisitTy uq target receiver acc
  | target, .ref r t, acc => scopeVisitTy uq target t (scopeVisitR uq target r acc)
  | target, .fnPtr i o, acc => scopeVisitTy uq (target + 1) o (scopeVisitTy uq (target + 1) i acc)

/-- `TypeRelating::create_scope` on the signature of a `fnPtr` binder
(input visited before output).  Returns the scope and the delegate state. -/
def createScope (uq : Bool) (input output : Ty) (s : RelState) : Scope × RelState :=
  let acc := scopeVisitTy uq 0 output (scopeVisitTy uq 0 input ⟨[], none, s⟩)
  (acc.scope, acc.st)

/-- The constant fields of a `TypeGeneralizer`: the excluded variable's
universe, the excluded variable's subtyping root, the current
`first_free_index`, and the generalizer's own ambient variance. -/
structure GenCtx where
  uni : Nat
  forVidSubRoot : Nat
  firstFree : Nat
  ambient : Variance

/-- `TypeGeneralizer::regions`: a bound region bound outside the binders
opened during this generalization passes through; every other region is
replaced by a fresh existential region (`delegate.generalize_existential`)
in the excluded variable's universe. -/
def genRegions (ctx : GenCtx) (r : Region) (s : RelState) : Region × RelState :=
  match r with
  | .reLateBound d name =>
    if d < ctx.firstFree then (.reLateBound d name, s)
    else (.reVar s.nextRegionVar, { s with nextRegionVar := s.nextRegionVar + 1 })
  | _ => (.reVar s.nextRegionVar, { s with nextRegionVar := s.nextRegionVar + 1 })

/-- `TypeGeneralizer::tys` (with `binders` and the structural recursion of
`super_relate_tys` folded in; the generalizer always relates a value
against itself).  Projection receivers are related invariantly (substs),
`fnPtr` inputs contravariantly, mirroring the shared `Relate` impls. -/
def genTys (p : Policy) : Nat → GenCtx → Ty → RelState → RRes Ty
  | 0, _, _, _ => .fuelOut
  | fuel + 1, ctx, a, s =>
    match a with
    | .tvar vid =>
      if p.forbidInferenceVars then .fatal 1
      else
        let vidR := rootVar s vid
        if subRootVar s vidR = ctx.forVidSubRoot then .err s
        else
          match probe s vidR with
          | some u => genTys p fuel ctx u s
          | none =>
            let (newId, s1) := newTyVar ctx.uni s
            .ok (.tvar newId) s1
    | .intVar n => if p.forbidInferenceVars then .fatal 1 else .ok (.intVar n) s
    | .floatVar n => if p.forbidInferenceVars then .fatal 1 else .ok (.floatVar n) s
    | .placeholder u2 name =>
      if ctx.uni < u2 then .err s else .ok (.placeholder u2 name) s
    | .base n => .ok (.base n) s
    | .proj item receiver =>
      match genTys p fuel { ctx with ambient := ctx.ambient.xform .invariant } receiver s with
      | .ok r s1 => .ok (.proj item r) s1
      | .err s1 => .err s1
      | .fatal code => .fatal code
      | .fuelOut => .fuelOut
    | .ref r t =>
      let (r1, s1) := genRegions ctx r s
      match genTys p fuel ctx t s1 with
      | .ok t1 s2 => .ok (.ref r1 t1) s2
      | .err s2 => .err s2
      | .fatal code => .fatal code
      | .fuelOut => .fuelOut
    | .fnPtr i o =>
      let ctx1 := { ctx with firstFree := ctx.firstFree + 1 }
      match genTys p fuel { ctx1 with ambient := ctx1.ambient.xform .contravariant } i s with
      | .ok i1 s1 =>
        match genTys p fuel ctx1 o s1 with
        | .ok o1 s2 => .ok (.fnPtr i1 o1) s2
        | .err s2 => .err s2
        | .fatal code => .fatal code
        | .fuelOut => .fuelOut
      | .err s1 => .err s1
      | .fatal code => .fatal code
      | .fuelOut => .fuelOut

/-- The operations of the relation engine, as one request type so the whole
mutually recursive engine is a single fueled interpreter.  Signatures are
passed as their two component types; a signature result is returned as the
corresponding `fnPtr` type (which is how `super_relate_tys` repackages the
related signature anyway). -/
inductive Call where
  | relate (a b : Ty)
  | relateVar (vid : Nat) (value : Ty)
  | withVariance (v : Variance) (a b : Ty)
  | superComb (a b : Ty)
  | bindersC (i1 o1 i2 o2 : Ty)
  | sigC (i1 o1 i2 o2 : Ty)
deriving DecidableEq, Repr

/-- The covariant block of `TypeRelating::binders` (the body of the first
`if` in the source): create the universal scope for the `b` side first and
the existential scope for the `a` side, push both, force the ambient
variance to covariant, relate the two signatures through `recur`, then
restore the variance and pop both scopes — the restore and the pops are
skipped when the body relation fails, exactly as the `?` operator does. -/
def covBranch (recur : Call → RelState → RRes Ty) (i1 o1 i2 o2 : Ty) (s : RelState) :
    RRes Unit :=
  let cb := createScope true i2 o2 s
  let ca := createScope false i1 o1 cb.2
  let s3 := { ca.2 with
    bScopes := ca.2.bScopes ++ [cb.1]
    aScopes := ca.2.aScopes ++ [ca.1] }
  let oldV := s3.ambient
  match recur (.sigC i1 o1 i2 o2) { s3 with ambient := .covariant } with
  | .ok _ s4 =>
    .ok () { s4 with
      ambient := oldV
      bScopes := s4.bScopes.dropLast
      aScopes := s4.aScopes.dropLast }
  | .err s4 => .err s4
  | .fatal code => .fatal code
  | .fuelOut => .fuelOut

/-- The contravariant block of `TypeRelating::binders` (the second `if` in
the source): the mirror image — `a` universal (created first), `b`
existential, body related under ambient variance forced to contravariant. -/
def contraBranch (recur : Call → RelState → RRes Ty) (i1 o1 i2 o2 : Ty) (s : RelState) :
    RRes Unit :=
  let ca := createScope true i1 o1 s
  let cb := createScope false i2 o2 ca.2
  let s3 := { cb.2 with
    aScopes := cb.2.aScopes ++ [ca.1]
    bScopes := cb.2.bScopes ++ [cb.1] }
  let oldV := s3.ambient
  match recur (.sigC i1 o1 i2 o2) { s3 with ambient := .contravariant } with
  | .ok _ s4 =>
    .ok () { s4 with
      ambient := oldV
      bScopes := s4.bScopes.dropLast
      aScopes := s4.aScopes.dropLast }
  | .err s4 => .err s4
  | .fatal code => .fatal code
  | .fuelOut => .fuelOut

/-- The relation engine.  `Call.relate` is `TypeRelating::tys` (the `relate`
entry point for types), `Call.relateVar` is `relate_ty_var`,
`Call.withVariance` is `relate_with_variance`, `Call.superComb` is
`super_combine_tys`/`super_relate_tys` specialized to this constructor set,
`Call.bindersC` is `binders`, and `Call.sigC` is the shared `Relate`
instance for signatures (inputs contravariant, output covariant).  Note the
deliberate faithfulness points: `relate_with_variance` and `binders` skip
their restore/pop steps when the inner relation returns an error (the Rust
`?` operator), and `relate_ty_var` clears and restores only `a_scopes`. -/
def engine (p : Policy) : Nat → Call → RelState → RRes Ty
  | 0, _, _ => .fuelOut
  | fuel + 1, c, s =>
    match c with
    | .relate a0 b0 =>
      let a := shallowResolve s a0
      let b := if p.forbidInferenceVars then b0 else shallowResolve s b0
      match a, b with
      | a, .tvar vid =>
        if p.forbidInferenceVars then .fatal 0
        else engine p fuel (.relateVar vid a) s
      | .tvar vid, b => engine p fuel (.relateVar vid b) s
      | .proj item receiver, b =>
        if p.normalization = .lazy then
          let r := relateProjectionTy item receiver b s
          .ok r.1 r.2
        else engine p fuel (.superComb (.proj item receiver) b) s
      | a, .proj item receiver =>
        if p.normalization = .lazy then
          let r := relateProjectionTy item receiver a s
          .ok r.1 r.2
        else engine p fuel (.superComb a (.proj item receiver)) s
      | a, b => engine p fuel (.superComb a b) s
    | .relateVar vid value =>
      match value, p.normalization with
      | .tvar valueVid, _ => .ok (.tvar valueVid) (equate s vid valueVid)
      | .proj item receiver, .lazy =>
        let r := relateProjectionTy item receiver (.tvar vid) s
        .ok r.1 r.2
      | value, _ =>
        match s.varTable.get? (rootVar s vid) with
        | none => .fatal 4
        | some rec =>
          match rec.value with
          | some _ => .fatal 4
          | none =>
            let ctx : GenCtx := ⟨rec.uni, subRootVar s vid, 0, s.ambient⟩
            match genTys p fuel ctx value s with
            | .err s1 => .err s1
            | .fatal code => .fatal code
            | .fuelOut => .fuelOut
            | .ok generalizedTy s1 =>
              if p.forbidInferenceVars && hasInferTypes generalizedTy then .fatal 2
              else
                let s2 := instantiate s1 vid generalizedTy
                let oldA := s2.aScopes
                match engine p fuel (.relate generalizedTy value) { s2 with aScopes := [] } with
                | .ok v s3 => .ok v { s3 with aScopes := oldA }
                | .err s3 => .err { s3 with aScopes := oldA }
                | .fatal code => .fatal code
                | .fuelOut => .fuelOut
    | .withVariance v a b =>
      let old := s.ambient
      match engine p fuel (.relate a b) { s with ambient := s.ambient.xform v } with
      | .ok r s1 => .ok r { s1 with ambient := old }
      | .err s1 => .err s1
      | .fatal code => .fatal code
      | .fuelOut => .fuelOut
    | .superComb a b =>
      match a, b with
      | .tvar _, _ => .fatal 5
      | _, .tvar _ => .fatal 5
      | .intVar n, .intVar _ => .ok (.intVar n) s
      | .floatVar n, .floatVar _ => .ok (.floatVar n) s
      | .base n, .base m => if n = m then .ok (.base n) s else .err s
      | .placeholder u1 n1, .placeholder u2 n2 =>
        if u1 = u2 && n1 = n2 then .ok (.placeholder u1 n1) s else .err s
      | .proj i1 r1, .proj i2 r2 =>
        if i1 = i2 then
          match engine p fuel (.withVariance .invariant r1 r2) s with
          | .ok r s1 => .ok (.proj i1 r) s1
          | .err s1 => .err s1
          | .fatal code => .fatal code
          | .fuelOut => .fuelOut
        else .err s
      | .ref r1 t1, .ref r2 t2 =>
        match relateRegions r1 r2 s with
        | .ok r s1 =>
          match engine p fuel (.relate t1 t2) s1 with
          | .ok t s2 => .ok (.ref r t) s2
          | .err s2 => .err s2
          | .fatal code => .fatal code
          | .fuelOut => .fuelOut
        | .err s1 => .err s1
        | .fatal code => .fatal code
        | .fuelOut => .fuelOut
      | .fnPtr i1 o1, .fnPtr i2 o2 => engine p fuel (.bindersC i1 o1 i2 o2) s
      | _, _ => .err s
    | .bindersC i1 o1 i2 o2 =>
      match (if ambientCovariance s.ambient
             then covBranch (engine p fuel) i1 o1 i2 o2 s
             else .ok () s) with
      | .ok _ t =>
        match (if ambientContravariance t.ambient
               then contraBranch (engine p fuel) i1 o1 i2 o2 t
               else .ok () t) with
        | .ok _ u => .ok (.fnPtr i1 o1) u
        | .err u => .err u
        | .fatal code => .fatal code
        | .fuelOut => .fuelOut
      | .err t => .err t
      | .fatal code => .fatal code
      | .fuelOut => .fuelOut
    | .sigC i1 o1 i2 o2 =>
      match engine p fuel (.withVariance .contravariant i1 i2) s with
      | .ok i s1 =>
        match engine p fuel (.relate o1 o2) s1 with
        | .ok o s2 => .ok (.fnPtr i o) s2
        | .err s2 => .err s2
        | .fatal code => .fatal code
        | .fuelOut => .fuelOut
      | .err s1 => .err s1
      | .fatal code => .fatal code
      | .fuelOut => .fuelOut

/-- The public entry point `TypeRelating::relate` on two types. -/
def relate (p : Policy) (fuel : Nat) (a b : Ty) (s : RelState) : RRes Ty :=
  engine p fuel (.relate a b) s

/-- `TypeRelating::relate_ty_var`. -/
def relate_ty_var (p : Policy) (fuel : Nat) (vid : Nat) (value : Ty) (s : RelState) : RRes Ty :=
  engine p fuel (.relateVar vid value) s

/-- `TypeRelating::binders`, on the two signatures of two binder types. -/
def binders (p : Policy) (fuel : Nat) (i1 o1 i2 o2 : Ty) (s : RelState) : RRes Ty :=
  engine p fuel (.bindersC i1 o1 i2 o2) s

/-- The shared signature relation (inputs contravariant, output covariant). -/
def relateSig (p : Policy) (fuel : Nat) (i1 o1 i2 o2 : Ty) (s : RelState) : RRes Ty :=
  engine p fuel (.sigC i1 o1 i2 o2) s

/-- Modelled from the spec: the variant of `relate_ty_var` the specification
describes, in which BOTH scope stacks are temporarily cleared around the
re-relation of the generalized value against the original one, and both are
restored before returning, on success and on error alike.  It exists only
to be compared with the code's `relate_ty_var`, which clears and restores
`a_scopes` alone. -/
def relateTyVarSpecClearBoth (p : Policy) (fuel : Nat) (vid : Nat) (value : Ty)
    (s : RelState) : RRes Ty :=
  match value, p.normalization with
  | .tvar valueVid, _ => .ok (.tvar valueVid) (equate s vid valueVid)
  | .proj item receiver, .lazy =>
    let r := relateProjectionTy item receiver (.tvar vid) s
    .ok r.1 r.2
  | value, _ =>
    match s.varTable.get? (rootVar s vid) with
    | none => .fatal 4
    | some rec =>
      match rec.value with
      | some _ => .fatal 4
      | none =>
        let ctx : GenCtx := ⟨rec.uni, subRootVar s vid, 0, s.ambient⟩
        match genTys p fuel ctx value s with
        | .err s1 => .err s1
        | .fatal code => .fatal code
        | .fuelOut => .fuelOut
        | .ok generalizedTy s1 =>
          if p.forbidInferenceVars && hasInferTypes generalizedTy then .fatal 2
          else
            let s2 := instantiate s1 vid generalizedTy
            let oldA := s2.aScopes
            let oldB := s2.bScopes
            match engine p fuel (.relate generalizedTy value)
                { s2 with aScopes := [], bScopes := [] } with
            | .ok v s3 => .ok v { s3 with aScopes := oldA, bScopes := oldB }
            | .err s3 => .err { s3 with aScopes := oldA, bScopes := oldB }
            | .fatal code => .fatal code
            | .fuelOut => .fuelOut

/-! ### Frame lemmas: which parts of the state each operation can touch -/

/-- The state evolved only in the fresh-id counters. -/
def DelegateOnly (s s' : RelState) : Prop :=
  s'.aScopes = s.aScopes ∧ s'.bScopes = s.bScopes ∧ s'.ambient = s.ambient ∧
  s'.varTable = s.varTable ∧ s'.goals = s.goals ∧ s'.outlives = s.outlives

theorem delegateOnly_refl (s : RelState) : DelegateOnly s s :=
  ⟨rfl, rfl, rfl, rfl, rfl, rfl⟩

theorem delegateOnly_trans {s t u : RelState} (h1 : DelegateOnly s t)
    (h2 : DelegateOnly t u) : DelegateOnly s u := by
  obtain ⟨a1, b1, c1, d1, e1, f1⟩ := h1
  obtain ⟨a2, b2, c2, d2, e2, f2⟩ := h2
  exact ⟨a2.trans a1, b2.trans b1, c2.trans c1, d2.trans d1, e2.trans e1, f2.trans f1⟩

theorem scopeInsert_st (uq : Bool) (name : Nat) (acc : ScopeAcc) :
    DelegateOnly acc.st (scopeInsert uq name acc).st := by
  unfold scopeInsert
  split
  · exact delegateOnly_refl _
  · split
    · split
      · exact delegateOnly_refl _
      · exact ⟨rfl, rfl, rfl, rfl, rfl, rfl⟩
    · exact ⟨rfl, rfl, rfl, rfl, rfl, rfl⟩

theorem scopeVisitR_st (uq : Bool) (target : Nat) (r : Region) (acc : ScopeAcc) :
    DelegateOnly acc.st (scopeVisitR uq target r acc).st := by
  unfold scopeVisitR
  split
  · split
    · exact scopeInsert_st ..
    · exact delegateOnly_refl _
  · exact delegateOnly_refl _

theorem scopeVisitTy_st (uq : Bool) :
    ∀ (target : Nat) (t : Ty) (acc : ScopeAcc),
      DelegateOnly acc.st (scopeVisitTy uq target t acc).st := by
  intro target t
  induction t generalizing target with
  | tvar _ => intro acc; exact delegateOnly_refl _
  | intVar _ => intro acc; exact delegateOnly_refl _
  | floatVar _ => intro acc; exact delegateOnly_refl _
  | base _ => intro acc; exact delegateOnly_refl _
  | placeholder _ _ => intro acc; exact delegateOnly_refl _
  | proj _ receiver ih => intro acc; exact ih target _
  | ref r t ih =>
    intro acc
    exact delegateOnly_trans (scopeVisitR_st uq target r acc) (ih target _)
  | fnPtr i o ihi iho =>
    intro acc
    exact delegateOnly_trans (ihi (target + 1) acc) (iho (target + 1) _)

theorem createScope_st (uq : Bool) (input output : Ty) (s : RelState) :
    DelegateOnly s (createScope uq input output s).2 := by
  unfold createScope
  exact delegateOnly_trans (scopeVisitTy_st uq 0 input ⟨[], none, s⟩)
    (scopeVisitTy_st uq 0 output _)

theorem relateProjectionTy_st (item : Nat) (receiver valueTy : Ty) (s : RelState) :
    (relateProjectionTy item receiver valueTy s).2.aScopes = s.aScopes ∧
    (relateProjectionTy item receiver valueTy s).2.bScopes = s.bScopes ∧
    (relateProjectionTy item receiver valueTy s).2.ambient = s.ambient ∧
    (relateProjectionTy item receiver valueTy s).2.outlives = s.outlives := by
  unfold relateProjectionTy
  split <;> simp [newTyVar, pushGoal]

theorem relateRegions_ok_st (a b : Region) (s : RelState) (r : Region) (s' : RelState)
    (h : relateRegions a b s = .ok r s') :
    s'.aScopes = s.aScopes ∧ s'.bScopes = s.bScopes ∧ s'.ambient = s.ambient ∧
    s'.varTable = s.varTable ∧ s'.goals = s.goals := by
  unfold relateRegions at h
  split at h
  · cases h
    split <;> split <;> simp [pushOutlives]
  · cases h

theorem equate_st (s : RelState) (x y : Nat) :
    (equate s x y).aScopes = s.aScopes ∧ (equate s x y).bScopes = s.bScopes ∧
    (equate s x y).ambient = s.ambient ∧ (equate s x y).goals = s.goals ∧
    (equate s x y).outlives = s.outlives ∧
    (equate s x y).varTable.length = s.varTable.length := by
  simp [equate]

theorem instantiate_st (s : RelState) (v : Nat) (t : Ty) :
    (instantiate s v t).aScopes = s.aScopes ∧ (instantiate s v t).bScopes = s.bScopes ∧
    (instantiate s v t).ambient = s.ambient ∧ (instantiate s v t).goals = s.goals ∧
    (instantiate s v t).outlives = s.outlives := by
  simp only [instantiate]
  split <;> simp

theorem genRegions_st (ctx : GenCtx) (r : Region) (s : RelState) :
    DelegateOnly s (genRegions ctx r s).2 := by
  unfold genRegions
  split
  · split
    · exact delegateOnly_refl _
    · exact ⟨rfl, rfl, rfl, rfl, rfl, rfl⟩
  · exact ⟨rfl, rfl, rfl, rfl, rfl, rfl⟩

/-- The state fields the generalizer never writes. -/
def GenFrame (s s' : RelState) : Prop :=
  s'.aScopes = s.aScopes ∧ s'.bScopes = s.bScopes ∧ s'.ambient = s.ambient ∧
  s'.goals = s.goals ∧ s'.outlives = s.outlives

theorem genFrame_refl (s : RelState) : GenFrame s s := ⟨rfl, rfl, rfl, rfl, rfl⟩

theorem genFrame_trans {s t u : RelState} (h1 : GenFrame s t) (h2 : GenFrame t u) :
    GenFrame s u := by
  obtain ⟨a1, b1, c1, d1, e1⟩ := h1
  obtain ⟨a2, b2, c2, d2, e2⟩ := h2
  exact ⟨a2.trans a1, b2.trans b1, c2.trans c1, d2.trans d1, e2.trans e1⟩

theorem delegateOnly_genFrame {s s' : RelState} (h : DelegateOnly s s') : GenFrame s s' :=
  ⟨h.1, h.2.1, h.2.2.1, h.2.2.2.2.1, h.2.2.2.2.2⟩

theorem newTyVar_genFrame (uni : Nat) (s : RelState) : GenFrame s (newTyVar uni s).2 := by
  simp [newTyVar, GenFrame]

/-- The generalizer writes only the variable table (appending fresh
variables) and the fresh-region counter, whether it succeeds or fails. -/
theorem genTys_frame (p : Policy) :
    ∀ (fuel : Nat) (ctx : GenCtx) (t : Ty) (s : RelState),
      (∀ v s', genTys p fuel ctx t s = .ok v s' → GenFrame s s') ∧
      (∀ s', genTys p fuel ctx t s = .err s' → GenFrame s s') := by
  intro fuel
  induction fuel with
  | zero =>
    intro ctx t s
    refine ⟨?_, ?_⟩
    · intro v s' h; simp [genTys] at h
    · intro s' h; simp [genTys] at h
  | succ fuel ih =>
    intro ctx t s
    constructor
    · intro v s' h
      simp only [genTys] at h
      split at h
      · split at h
        · cases h
        · split at h
          · cases h
          · split at h
            · exact (ih ctx _ s).1 v s' h
            · cases h; exact newTyVar_genFrame ..
      · split at h
        · cases h
        · cases h; exact genFrame_refl _
      · split at h
        · cases h
        · cases h; exact genFrame_refl _
      · split at h
        · cases h
        · cases h; exact genFrame_refl _
      · cases h; exact genFrame_refl _
      · split at h
        · cases h; exact (ih _ _ s).1 _ _ (by assumption)
        · cases h
        · cases h
        · cases h
      · rename_i r t'
        split at h
        · cases h
          exact genFrame_trans (delegateOnly_genFrame (genRegions_st ctx r s))
            ((ih ctx t' _).1 _ _ (by assumption))
        · cases h
        · cases h
        · cases h
      · rename_i i o
        split at h
        · rename_i i1 s1 hi
          split at h
          · cases h
            exact genFrame_trans ((ih _ i s).1 _ _ hi) ((ih _ o s1).1 _ _ (by assumption))
          · cases h
          · cases h
          · cases h
        · cases h
        · cases h
        · cases h
    · intro s' h
      simp only [genTys] at h
      split at h
      · split at h
        · cases h
        · split at h
          · cases h; exact genFrame_refl _
          · split at h
            · exact (ih ctx _ s).2 s' h
            · cases h
      · split at h
        · cases h
        · cases h
      · split at h
        · cases h
        · cases h
      · split at h
        · cases h; exact genFrame_refl _
        · cases h
      · cases h
      · split at h
        · cases h
        · cases h; exact (ih _ _ s).2 _ (by assumption)
        · cases h
        · cases h
      · rename_i r t'
        split at h
        · cases h
        · cases h
          exact genFrame_trans (delegateOnly_genFrame (genRegions_st ctx r s))
            ((ih ctx t' _).2 _ (by assumption))
        · cases h
        · cases h
      · rename_i i o
        split at h
        · rename_i i1 s1 hi
          split at h
          · cases h
          · cases h
            exact genFrame_trans ((ih _ i s).1 _ _ hi) ((ih _ o s1).2 _ (by assumption))
          · cases h
          · cases h
        · cases h; exact (ih _ i s).2 _ (by assumption)
        · cases h
        · cases h

/-! ### Lookup preservation: the generalizer only appends fresh variables,
so every union-find lookup and probe is unchanged by it -/

/-- Two states answer every variable lookup identically. -/
def LookupEq (s s' : RelState) : Prop :=
  ∀ v, rootVar s' v = rootVar s v ∧ subRootVar s' v = subRootVar s v ∧
    probe s' v = probe s v

theorem lookupEq_refl (s : RelState) : LookupEq s s := fun _ => ⟨rfl, rfl, rfl⟩

theorem lookupEq_trans {s t u : RelState} (h1 : LookupEq s t) (h2 : LookupEq t u) :
    LookupEq s u := by
  intro v
  exact ⟨(h2 v).1.trans (h1 v).1, (h2 v).2.1.trans (h1 v).2.1, (h2 v).2.2.trans (h1 v).2.2⟩

theorem varTable_eq_lookupEq {s s' : RelState} (h : s'.varTable = s.varTable) :
    LookupEq s s' := by
  intro v
  simp [rootVar, subRootVar, probe, h]

/-- Appending one fresh, self-rooted, valueless record changes no lookup:
an in-range index still finds its old record, the new index `n` previously
answered with the defaults `n`/`n`/`none`, which is exactly what the fresh
record answers. -/
theorem newTyVar_lookupEq (uni : Nat) (s : RelState) : LookupEq s (newTyVar uni s).2 := by
  have hget : ∀ v, ((newTyVar uni s).2.varTable.get? v) =
      if v = s.varTable.length then some ⟨s.varTable.length, s.varTable.length, none, uni⟩
      else s.varTable.get? v := by
    intro v
    simp only [newTyVar]
    rcases lt_trichotomy v s.varTable.length with hv | hv | hv
    · rw [List.get?_append hv, if_neg (Nat.ne_of_lt hv)]
    · subst hv
      rw [if_pos rfl, List.get?_append_right (le_refl _)]
      simp
    · rw [if_neg (Nat.ne_of_gt hv), List.get?_append_right (Nat.le_of_lt hv)]
      have h1 : s.varTable.get? v = none := List.get?_eq_none.mpr (Nat.le_of_lt hv)
      rw [h1]
      apply List.get?_eq_none.mpr
      simp
      omega
  have hnone : s.varTable.get? s.varTable.length = none :=
    List.get?_eq_none.mpr (le_refl _)
  have hroot : ∀ v, rootVar (newTyVar uni s).2 v = rootVar s v := by
    intro v
    simp only [rootVar, hget]
    by_cases hv : v = s.varTable.length
    · subst hv
      rw [if_pos rfl, hnone]
    · rw [if_neg hv]
  intro v
  refine ⟨hroot v, ?_, ?_⟩
  · simp only [subRootVar, hget]
    by_cases hv : v = s.varTable.length
    · subst hv
      rw [if_pos rfl, hnone]
    · rw [if_neg hv]
  · simp only [probe, hroot, hget]
    by_cases hr : rootVar s v = s.varTable.length
    · rw [if_pos hr, hr, hnone]
    · rw [if_neg hr]

/-- The generalizer preserves every variable lookup (it only appends fresh
variables and bumps the region counter), whether it succeeds or fails. -/
theorem genTys_lookupEq (p : Policy) :
    ∀ (fuel : Nat) (ctx : GenCtx) (t : Ty) (s : RelState),
      (∀ v s', genTys p fuel ctx t s = .ok v s' → LookupEq s s') ∧
      (∀ s', genTys p fuel ctx t s = .err s' → LookupEq s s') := by
  intro fuel
  induction fuel with
  | zero =>
    intro ctx t s
    refine ⟨?_, ?_⟩
    · intro v s' h; simp [genTys] at h
    · intro s' h; simp [genTys] at h
  | succ fuel ih =>
    intro ctx t s
    constructor
    · intro v s' h
      simp only [genTys] at h
      split at h
      · split at h
        · cases h
        · split at h
          · cases h
          · split at h
            · exact (ih ctx _ s).1 v s' h
            · cases h; exact newTyVar_lookupEq _ _
      · split at h
        · cases h
        · cases h; exact lookupEq_refl _
      · split at h
        · cases h
        · cases h; exact lookupEq_refl _
      · split at h
        · cases h
        · cases h; exact lookupEq_refl _
      · cases h; exact lookupEq_refl _
      · split at h
        · cases h; exact (ih _ _ s).1 _ _ (by assumption)
        · cases h
        · cases h
        · cases h
      · rename_i r t'
        split at h
        · cases h
          refine lookupEq_trans ?_ ((ih ctx t' _).1 _ _ (by assumption))
          exact varTable_eq_lookupEq (genRegions_st ctx r s).2.2.2.1
        · cases h
        · cases h
        · cases h
      · rename_i i o
        split at h
        · rename_i i1 s1 hi
          split at h
          · cases h
            exact lookupEq_trans ((ih _ i s).1 _ _ hi) ((ih _ o s1).1 _ _ (by assumption))
          · cases h
          · cases h
          · cases h
        · cases h
        · cases h
        · cases h
    · intro s' h
      simp only [genTys] at h
      split at h
      · split at h
        · cases h
        · split at h
          · cases h; exact lookupEq_refl _
          · split at h
            · exact (ih ctx _ s).2 s' h
            · cases h
      · split at h
        · cases h
        · cases h
      · split at h
        · cases h
        · cases h
      · split at h
        · cases h; exact lookupEq_refl _
        · cases h
      · cases h
      · split at h
        · cases h
        · cases h; exact (ih _ _ s).2 _ (by assumption)
        · cases h
        · cases h
      · rename_i r t'
        split at h
        · cases h
        · cases h
          refine lookupEq_trans ?_ ((ih ctx t' _).2 _ (by assumption))
          exact varTable_eq_lookupEq (genRegions_st ctx r s).2.2.2.1
        · cases h
        · cases h
      · rename_i i o
        split at h
        · rename_i i1 s1 hi
          split at h
          · cases h
          · cases h
            exact lookupEq_trans ((ih _ i s).1 _ _ hi) ((ih _ o s1).2 _ (by assumption))
          · cases h
          · cases h
        · cases h; exact (ih _ i s).2 _ (by assumption)
        · cases h
        · cases h

/-! ### The occurs check of the generalizer -/

/-- No type variable whose subtyping root equals `subroot` is reachable by
the generalizer's traversal (which descends through the known values of
variables), within the given fuel. -/
def occursFree (s : RelState) (subroot : Nat) : Nat → Ty → Bool
  | 0, _ => true
  | fuel + 1, t =>
    match t with
    | .tvar vid =>
      let vidR := rootVar s vid
      if subRootVar s vidR = subroot then false
      else
        match probe s vidR with
        | some u => occursFree s subroot fuel u
        | none => true
    | .proj _ receiver => occursFree s subroot fuel receiver
    | .ref _ t => occursFree s subroot fuel t
    | .fnPtr i o => occursFree s subroot fuel i && occursFree s subroot fuel o
    | _ => true

/-- Every placeholder reachable by the generalizer's traversal lives in a
universe that `uni` can name, within the given fuel. -/
def placeholderSafe (s : RelState) (uni : Nat) : Nat → Ty → Bool
  | 0, _ => true
  | fuel + 1, t =>
    match t with
    | .tvar vid =>
      match probe s (rootVar s vid) with
      | some u => placeholderSafe s uni fuel u
      | none => true
    | .placeholder u2 _ => decide (u2 ≤ uni)
    | .proj _ receiver => placeholderSafe s uni fuel receiver
    | .ref _ t => placeholderSafe s uni fuel t
    | .fnPtr i o => placeholderSafe s uni fuel i && placeholderSafe s uni fuel o
    | _ => true

theorem occursFree_congr {s s' : RelState} (h : LookupEq s s') (subroot : Nat) :
    ∀ (fuel : Nat) (t : Ty), occursFree s' subroot fuel t = occursFree s subroot fuel t := by
  intro fuel
  induction fuel with
  | zero => intro t; rfl
  | succ fuel ih =>
    intro t
    cases t with
    | tvar vid =>
      simp only [occursFree, (h vid).1, (h (rootVar s vid)).2.1, (h (rootVar s vid)).2.2]
      split
      · rfl
      · split
        · exact ih _
        · rfl
    | proj item receiver => exact ih receiver
    | ref r t => exact ih t
    | fnPtr i o => simp only [occursFree, ih i, ih o]
    | intVar n => rfl
    | floatVar n => rfl
    | base n => rfl
    | placeholder u2 name => rfl

theorem placeholderSafe_congr {s s' : RelState} (h : LookupEq s s') (uni : Nat) :
    ∀ (fuel : Nat) (t : Ty), placeholderSafe s' uni fuel t = placeholderSafe s uni fuel t := by
  intro fuel
  induction fuel with
  | zero => intro t; rfl
  | succ fuel ih =>
    intro t
    cases t with
    | tvar vid =>
      simp only [placeholderSafe, (h vid).1, (h (rootVar s vid)).2.2]
      split
      · exact ih _
      · rfl
    | proj item receiver => exact ih receiver
    | ref r t => exact ih t
    | fnPtr i o => simp only [placeholderSafe, ih i, ih o]
    | intVar n => rfl
    | floatVar n => rfl
    | base n => rfl
    | placeholder u2 name => rfl

/-- Core of the occurs-check soundness direction: with the forbid policy
off, if no variable with the excluded subtyping root and no
universe-violating placeholder is reachable, the generalizer does not
return a mismatch error. -/
theorem genTys_no_err (p : Policy) (hp : p.forbidInferenceVars = false) :
    ∀ (fuel : Nat) (ctx : GenCtx) (t : Ty) (s : RelState),
      occursFree s ctx.forVidSubRoot fuel t = true →
      placeholderSafe s ctx.uni fuel t = true →
      ∀ s', genTys p fuel ctx t s ≠ .err s' := by
  intro fuel
  induction fuel with
  | zero => intro ctx t s _ _ s' h; simp [genTys] at h
  | succ fuel ih =>
    intro ctx t s hocc hph s' h
    cases t with
    | tvar vid =>
      simp only [genTys, hp] at h
      simp only [occursFree] at hocc
      simp only [placeholderSafe] at hph
      split at h
      · cases h
      · split at h
        · rename_i hsub
          rw [if_pos hsub] at hocc
          exact absurd hocc (by simp)
        · rename_i hsub
          rw [if_neg hsub] at hocc
          split at h
          · rename_i u hu
            rw [hu] at hocc hph
            exact ih ctx u s hocc hph s' h
          · cases h
    | intVar n =>
      simp only [genTys, hp] at h
      split at h <;> cases h
    | floatVar n =>
      simp only [genTys, hp] at h
      split at h <;> cases h
    | base n =>
      simp only [genTys] at h
      cases h
    | placeholder u2 name =>
      simp only [genTys] at h
      simp only [placeholderSafe, decide_eq_true_eq] at hph
      rw [if_neg (by omega)] at h
      cases h
    | proj item receiver =>
      simp only [genTys] at h
      split at h
      · cases h
      · rename_i herr
        cases h
        refine ih _ receiver s ?_ ?_ _ herr
        · exact hocc
        · exact hph
      · cases h
      · cases h
    | ref r t =>
      simp only [genTys] at h
      have hLE : LookupEq s (genRegions ctx r s).2 :=
        varTable_eq_lookupEq (genRegions_st ctx r s).2.2.2.1
      split at h
      · cases h
      · rename_i herr
        cases h
        refine ih ctx t (genRegions ctx r s).2 ?_ ?_ _ herr
        · rw [occursFree_congr hLE]; exact hocc
        · rw [placeholderSafe_congr hLE]; exact hph
      · cases h
      · cases h
    | fnPtr i o =>
      simp only [genTys] at h
      simp only [occursFree, Bool.and_eq_true] at hocc
      simp only [placeholderSafe, Bool.and_eq_true] at hph
      split at h
      · rename_i i1 s1 hi
        have hLE : LookupEq s s1 := (genTys_lookupEq p fuel _ i s).1 i1 s1 hi
        split at h
        · cases h
        · rename_i herr
          cases h
          refine ih _ o s1 ?_ ?_ _ herr
          · rw [occursFree_congr hLE]; exact hocc.2
          · rw [placeholderSafe_congr hLE]; exact hph.2
        · cases h
        · cases h
      · rename_i herr
        cases h
        refine ih _ i s ?_ ?_ _ herr
        · exact hocc.1
        · exact hph.1
      · cases h
      · cases h

/-! ### Scope-stack preservation on the success path -/

theorem dropLast_append_single {α : Type} (l : List α) (x : α) :
    (l ++ [x]).dropLast = l := by
  simp

theorem covBranch_ok_scopes (recur : Call → RelState → RRes Ty)
    (hrec : ∀ c st v st', recur c st = .ok v st' →
      st'.aScopes = st.aScopes ∧ st'.bScopes = st.bScopes)
    (i1 o1 i2 o2 : Ty) (s : RelState) (x : Unit) (t : RelState)
    (h : covBranch recur i1 o1 i2 o2 s = .ok x t) :
    t.aScopes = s.aScopes ∧ t.bScopes = s.bScopes := by
  simp only [covBranch] at h
  split at h
  · rename_i s4 h4
    cases h
    have hin := hrec _ _ _ _ h4
    have hcb := createScope_st true i2 o2 s
    have hca := createScope_st false i1 o1 (createScope true i2 o2 s).2
    constructor
    · simp only []
      rw [hin.1]
      simp only []
      rw [hca.1, hcb.1, dropLast_append_single]
    · simp only []
      rw [hin.2]
      simp only []
      rw [hca.2.1, hcb.2.1, dropLast_append_single]
  · cases h
  · cases h
  · cases h

theorem contraBranch_ok_scopes (recur : Call → RelState → RRes Ty)
    (hrec : ∀ c st v st', recur c st = .ok v st' →
      st'.aScopes = st.aScopes ∧ st'.bScopes = st.bScopes)
    (i1 o1 i2 o2 : Ty) (s : RelState) (x : Unit) (t : RelState)
    (h : contraBranch recur i1 o1 i2 o2 s = .ok x t) :
    t.aScopes = s.aScopes ∧ t.bScopes = s.bScopes := by
  simp only [contraBranch] at h
  split at h
  · rename_i s4 h4
    cases h
    have hin := hrec _ _ _ _ h4
    have hca := createScope_st true i1 o1 s
    have hcb := createScope_st false i2 o2 (createScope true i1 o1 s).2
    constructor
    · simp only []
      rw [hin.1]
      simp only []
      rw [hcb.1, hca.1, dropLast_append_single]
    · simp only []
      rw [hin.2]
      simp only []
      rw [hcb.2.1, hca.2.1, dropLast_append_single]
  · cases h
  · cases h
  · cases h

theorem covBranch_no_fatal_of (recur : Call → RelState → RRes Ty)
    (i1 o1 i2 o2 : Ty) (s : RelState) (k : Nat)
    (hrec : ∀ st, recur (.sigC i1 o1 i2 o2) st ≠ .fatal k) :
    covBranch recur i1 o1 i2 o2 s ≠ .fatal k := by
  intro h
  simp only [covBranch] at h
  split at h
  · cases h
  · cases h
  · rename_i hft
    cases h
    exact hrec _ hft
  · cases h

theorem contraBranch_no_fatal_of (recur : Call → RelState → RRes Ty)
    (i1 o1 i2 o2 : Ty) (s : RelState) (k : Nat)
    (hrec : ∀ st, recur (.sigC i1 o1 i2 o2) st ≠ .fatal k) :
    contraBranch recur i1 o1 i2 o2 s ≠ .fatal k := by
  intro h
  simp only [contraBranch] at h
  split at h
  · cases h
  · cases h
  · rename_i hft
    cases h
    exact hrec _ hft
  · cases h

/-- Every engine operation that returns `ok` leaves both scope stacks
exactly as it found them: binder descent pops what it pushed, and the
variable-relation path restores the `a` stack it cleared. -/
theorem engine_ok_scopes (p : Policy) :
    ∀ (fuel : Nat) (c : Call) (s : RelState) (v : Ty) (s' : RelState),
      engine p fuel c s = .ok v s' → s'.aScopes = s.aScopes ∧ s'.bScopes = s.bScopes := by
  intro fuel
  induction fuel with
  | zero => intro c s v s' h; simp [engine] at h
  | succ fuel ih =>
    intro c s v s' h
    cases c with
    | relate a0 b0 =>
      simp only [engine] at h
      split at h
      · split at h
        · cases h
        · exact ih _ _ _ _ h
      · exact ih _ _ _ _ h
      · split at h
        · cases h
          exact ⟨(relateProjectionTy_st ..).1, (relateProjectionTy_st ..).2.1⟩
        · exact ih _ _ _ _ h
      · split at h
        · cases h
          exact ⟨(relateProjectionTy_st ..).1, (relateProjectionTy_st ..).2.1⟩
        · exact ih _ _ _ _ h
      · exact ih _ _ _ _ h
    | relateVar vid value =>
      simp only [engine] at h
      split at h
      · cases h
        exact ⟨(equate_st ..).1, (equate_st ..).2.1⟩
      · cases h
        exact ⟨(relateProjectionTy_st ..).1, (relateProjectionTy_st ..).2.1⟩
      · split at h
        · cases h
        · split at h
          · cases h
          · split at h
            · cases h
            · cases h
            · cases h
            · rename_i generalizedTy s1 hgen
              split at h
              · cases h
              · split at h
                · rename_i v3 s3 h3
                  cases h
                  have hin := ih _ _ _ _ h3
                  have hgenf := (genTys_frame p fuel _ _ s).1 _ _ hgen
                  refine ⟨?_, ?_⟩
                  · simp only []
                    rw [(instantiate_st s1 vid generalizedTy).1, hgenf.1]
                  · simp only []
                    rw [hin.2]
                    simp only []
                    rw [(instantiate_st s1 vid generalizedTy).2.1, hgenf.2.1]
                · cases h
                · cases h
                · cases h
    | withVariance vr a b =>
      simp only [engine] at h
      split at h
      · rename_i r1 s1 h1
        cases h
        have := ih _ _ _ _ h1
        exact ⟨this.1, this.2⟩
      · cases h
      · cases h
      · cases h
    | superComb a b =>
      simp only [engine] at h
      split at h
      · cases h
      · cases h
      · cases h; exact ⟨rfl, rfl⟩
      · cases h; exact ⟨rfl, rfl⟩
      · split at h
        · cases h; exact ⟨rfl, rfl⟩
        · cases h
      · split at h
        · cases h; exact ⟨rfl, rfl⟩
        · cases h
      · split at h
        · split at h
          · rename_i r1 s1 h1
            cases h
            exact ih _ _ _ _ h1
          · cases h
          · cases h
          · cases h
        · cases h
      · split at h
        · rename_i r1 s1 h1
          split at h
          · rename_i t2 s2 h2
            cases h
            have hreg := relateRegions_ok_st _ _ _ _ _ h1
            have hin := ih _ _ _ _ h2
            exact ⟨hin.1.trans hreg.1, hin.2.trans hreg.2.1⟩
          · cases h
          · cases h
          · cases h
        · cases h
        · cases h
        · cases h
      · exact ih _ _ _ _ h
      · cases h
    | bindersC i1 o1 i2 o2 =>
      simp only [engine] at h
      split at h
      · rename_i x1 t hphase1
        have hstep1 : t.aScopes = s.aScopes ∧ t.bScopes = s.bScopes := by
          split at hphase1
          · exact covBranch_ok_scopes _ (fun c st v st' hh => ih c st v st' hh)
              _ _ _ _ _ _ _ hphase1
          · cases hphase1
            exact ⟨rfl, rfl⟩
        split at h
        · rename_i x2 u hphase2
          have hstep2 : u.aScopes = t.aScopes ∧ u.bScopes = t.bScopes := by
            split at hphase2
            · exact contraBranch_ok_scopes _ (fun c st v st' hh => ih c st v st' hh)
                _ _ _ _ _ _ _ hphase2
            · cases hphase2
              exact ⟨rfl, rfl⟩
          cases h
          exact ⟨hstep2.1.trans hstep1.1, hstep2.2.trans hstep1.2⟩
        · cases h
        · cases h
        · cases h
      · cases h
      · cases h
      · cases h
    | sigC i1 o1 i2 o2 =>
      simp only [engine] at h
      split at h
      · rename_i r1 s1 h1
        split at h
        · rename_i r2 s2 h2
          cases h
          have ha := ih _ _ _ _ h1
          have hb := ih _ _ _ _ h2
          exact ⟨hb.1.trans ha.1, hb.2.trans ha.2⟩
        · cases h
        · cases h
        · cases h
      · cases h
      · cases h
      · cases h

/-! ### Fatal-abort unreachability under the forbid-inference-vars policy -/

/-- On an inference-variable-free input the generalizer never aborts: its
only `bug!` arm is the inference-variable arm. -/
theorem genTys_no_fatal (p : Policy) :
    ∀ (fuel : Nat) (ctx : GenCtx) (t : Ty) (s : RelState),
      hasInferTypes t = false → ∀ code, genTys p fuel ctx t s ≠ .fatal code := by
  intro fuel
  induction fuel with
  | zero => intro ctx t s _ code h; simp [genTys] at h
  | succ fuel ih =>
    intro ctx t s hfree code h
    cases t with
    | tvar vid => simp [hasInferTypes] at hfree
    | intVar n => simp [hasInferTypes] at hfree
    | floatVar n => simp [hasInferTypes] at hfree
    | base n => simp [genTys] at h
    | placeholder u2 name =>
      simp only [genTys] at h
      split at h <;> cases h
    | proj item receiver =>
      simp only [genTys] at h
      split at h
      · cases h
      · cases h
      · cases h
        rename_i hft
        exact ih _ receiver s (by simpa [hasInferTypes] using hfree) _ hft
      · cases h
    | ref r t =>
      simp only [genTys] at h
      split at h
      · cases h
      · cases h
      · cases h
        rename_i hft
        exact ih _ t _ (by simpa [hasInferTypes] using hfree) _ hft
      · cases h
    | fnPtr i o =>
      simp only [hasInferTypes, Bool.or_eq_false_iff] at hfree
      simp only [genTys] at h
      split at h
      · rename_i i1 s1 hi
        split at h
        · cases h
        · cases h
        · cases h
          rename_i hft
          exact ih _ o s1 hfree.2 _ hft
        · cases h
      · cases h
      · cases h
        rename_i hft
        exact ih _ i s hfree.1 _ hft
      · cases h

/-- On an inference-variable-free input the generalizer's output is also
inference-variable free. -/
theorem genTys_ok_inferFree (p : Policy) :
    ∀ (fuel : Nat) (ctx : GenCtx) (t : Ty) (s : RelState) (v : Ty) (s' : RelState),
      hasInferTypes t = false → genTys p fuel ctx t s = .ok v s' →
      hasInferTypes v = false := by
  intro fuel
  induction fuel with
  | zero => intro ctx t s v s' _ h; simp [genTys] at h
  | succ fuel ih =>
    intro ctx t s v s' hfree h
    cases t with
    | tvar vid => simp [hasInferTypes] at hfree
    | intVar n => simp [hasInferTypes] at hfree
    | floatVar n => simp [hasInferTypes] at hfree
    | base n =>
      simp only [genTys] at h
      cases h
      exact hfree
    | placeholder u2 name =>
      simp only [genTys] at h
      split at h
      · cases h
      · cases h
        exact hfree
    | proj item receiver =>
      simp only [genTys] at h
      split at h
      · rename_i r1 s1 hr
        cases h
        simpa [hasInferTypes] using
          ih _ receiver s _ _ (by simpa [hasInferTypes] using hfree) hr
      · cases h
      · cases h
      · cases h
    | ref r t =>
      simp only [genTys] at h
      split at h
      · rename_i t1 s2 ht
        cases h
        simpa [hasInferTypes] using
          ih _ t _ _ _ (by simpa [hasInferTypes] using hfree) ht
      · cases h
      · cases h
      · cases h
    | fnPtr i o =>
      simp only [hasInferTypes, Bool.or_eq_false_iff] at hfree
      simp only [genTys] at h
      split at h
      · rename_i i1 s1 hi
        split at h
        · rename_i o1 s2 ho
          cases h
          simp only [hasInferTypes, Bool.or_eq_false_iff]
          exact ⟨ih _ i s _ _ hfree.1 hi, ih _ o s1 _ _ hfree.2 ho⟩
        · cases h
        · cases h
        · cases h
      · cases h
      · cases h
      · cases h

/-- The right-hand sides a call hands to the engine (the sides the forbid
policy constrains). -/
def rhsOk : Call → Bool
  | .relate _ b => !hasInferTypes b
  | .relateVar _ v => !hasInferTypes v
  | .withVariance _ _ b => !hasInferTypes b
  | .superComb _ b => !hasInferTypes b
  | .bindersC _ _ i2 o2 => !hasInferTypes i2 && !hasInferTypes o2
  | .sigC _ _ i2 o2 => !hasInferTypes i2 && !hasInferTypes o2

/-- Under the forbid-inference-vars policy, when the right-hand side really
contains no inference variable (the caller's guarantee), none of the three
contract-violation aborts (codes 0, 1, 2) can fire anywhere in the run. -/
theorem engine_no_low_fatal (p : Policy) (hp : p.forbidInferenceVars = true) :
    ∀ (fuel : Nat) (c : Call) (s : RelState) (k : Nat),
      k < 3 → rhsOk c = true → engine p fuel c s ≠ .fatal k := by
  intro fuel
  induction fuel with
  | zero => intro c s k _ _ h; simp [engine] at h
  | succ fuel ih =>
    intro c s k hk hrhs h
    cases c with
    | relate a0 b0 =>
      simp only [rhsOk, Bool.not_eq_true', Bool.not_eq_true] at hrhs
      simp only [engine, hp, eq_self_iff_true, if_true] at h
      split at h
      · simp [hasInferTypes] at hrhs
      · exact ih _ s k hk (by simp [rhsOk, hrhs]) h
      · split at h
        · cases h
        · exact ih _ s k hk (by simp [rhsOk, hrhs]) h
      · split at h
        · cases h
        · exact ih _ s k hk (by simp [rhsOk, hrhs]) h
      · exact ih _ s k hk (by simp [rhsOk, hrhs]) h
    | relateVar vid value =>
      simp only [rhsOk, Bool.not_eq_true', Bool.not_eq_true] at hrhs
      simp only [engine] at h
      split at h
      · cases h
      · cases h
      · rename_i value1 x hne1 hne2
        split at h
        · cases h
          omega
        · split at h
          · cases h
            omega
          · split at h
            · cases h
            · rename_i code hft
              cases h
              exact genTys_no_fatal p fuel _ _ s hrhs k hft
            · cases h
            · rename_i generalizedTy s1 hgen
              split at h
              · rename_i hcond
                rw [genTys_ok_inferFree p fuel _ _ s _ s1 hrhs hgen] at hcond
                simp at hcond
              · split at h
                · cases h
                · cases h
                · rename_i code hft
                  cases h
                  exact ih _ _ k hk
                    (by simp only [rhsOk, Bool.not_eq_true', Bool.not_eq_true]; exact hrhs) hft
                · cases h
    | withVariance vr a b =>
      simp only [rhsOk] at hrhs
      simp only [engine] at h
      split at h
      · cases h
      · cases h
      · rename_i code hft
        cases h
        exact ih _ _ k hk (by simpa [rhsOk] using hrhs) hft
      · cases h
    | superComb a b =>
      simp only [rhsOk, Bool.not_eq_true', Bool.not_eq_true] at hrhs
      simp only [engine] at h
      split at h
      · cases h
        omega
      · rename_i hne
        simp [hasInferTypes] at hrhs
      · cases h
      · cases h
      · split at h <;> cases h
      · split at h <;> cases h
      · split at h
        · split at h
          · cases h
          · cases h
          · rename_i code hft
            cases h
            refine ih _ s k hk ?_ hft
            simp only [rhsOk, Bool.not_eq_true', Bool.not_eq_true]
            simpa [hasInferTypes] using hrhs
          · cases h
        · cases h
      · split at h
        · split at h
          · cases h
          · cases h
          · rename_i code hft
            cases h
            refine ih _ _ k hk ?_ hft
            simp only [rhsOk, Bool.not_eq_true', Bool.not_eq_true]
            simpa [hasInferTypes] using hrhs
          · cases h
        · cases h
        · rename_i s1 hreg
          cases h
          simp only [relateRegions] at hreg
          split at hreg
          · split at hreg <;> split at hreg <;> cases hreg
          · cases hreg
            omega
        · cases h
      · refine ih _ s k hk ?_ h
        simp only [rhsOk]
        simpa [hasInferTypes, Bool.and_eq_true] using hrhs
      · cases h
    | bindersC x1 y1 x2 y2 =>
      simp only [rhsOk, Bool.and_eq_true] at hrhs
      simp only [engine] at h
      split at h
      · rename_i r1 t hphase1
        split at h
        · cases h
        · cases h
        · rename_i code hphase2
          cases h
          split at hphase2
          · refine contraBranch_no_fatal_of _ _ _ _ _ _ k
              (fun st hh => ih _ st k hk
                (by simp only [rhsOk, Bool.and_eq_true]; exact hrhs) hh) hphase2
          · cases hphase2
        · cases h
      · cases h
      · rename_i code hphase1
        cases h
        split at hphase1
        · refine covBranch_no_fatal_of _ _ _ _ _ _ k
            (fun st hh => ih _ st k hk
              (by simp only [rhsOk, Bool.and_eq_true]; exact hrhs) hh) hphase1
        · cases hphase1
      · cases h
    | sigC x1 y1 x2 y2 =>
      simp only [rhsOk, Bool.and_eq_true] at hrhs
      simp only [engine] at h
      split at h
      · split at h
        · cases h
        · cases h
        · rename_i code hft
          cases h
          refine ih _ _ k hk ?_ hft
          simp only [rhsOk]
          exact hrhs.2
        · cases h
      · cases h
      · rename_i code hft
        cases h
        refine ih _ _ k hk ?_ hft
        simp only [rhsOk]
        exact hrhs.1
      · cases h

/-! ### Targeted helper lemmas for the claims -/

/-- On the error path of `relate_ty_var` the `a` scope stack is restored:
a generalizer error leaves the stacks untouched, and an error of the
re-relation is caught after the explicit restore. -/
theorem relateVar_err_aScopes (p : Policy) :
    ∀ (fuel : Nat) (vid : Nat) (value : Ty) (s s' : RelState),
      engine p fuel (.relateVar vid value) s = .err s' → s'.aScopes = s.aScopes := by
  intro fuel vid value s s' h
  cases fuel with
  | zero => simp [engine] at h
  | succ fuel =>
    simp only [engine] at h
    split at h
    · cases h
    · cases h
    · split at h
      · cases h
      · split at h
        · cases h
        · split at h
          · rename_i hgen
            cases h
            exact ((genTys_frame p fuel _ _ s).2 _ hgen).1
          · cases h
          · cases h
          · rename_i generalizedTy s1 hgen
            split at h
            · cases h
            · split at h
              · cases h
              · rename_i s3 h3
                cases h
                simp only []
                rw [(instantiate_st s1 vid generalizedTy).1,
                  ((genTys_frame p fuel _ _ s).1 _ _ hgen).1]
              · cases h
              · cases h

/-- With the forbid policy off, shallow resolution leaves an unresolved
variable alone. -/
theorem shallowResolve_unresolved {s : RelState} {v : Nat} (hu : probe s v = none) :
    shallowResolve s (.tvar v) = .tvar v := by
  simp only [shallowResolve, shallowResolveGo, hu]

/-- Relating two unresolved type variables (forbid policy off) equates them
and returns the left input; nothing else happens. -/
theorem relate_unresolved_vars_eq (p : Policy) (hp : p.forbidInferenceVars = false)
    (fuel : Nat) (v1 v2 : Nat) (s : RelState)
    (hu1 : probe s v1 = none) (hu2 : probe s v2 = none) :
    relate p (fuel + 2) (.tvar v1) (.tvar v2) s = .ok (.tvar v1) (equate s v2 v1) := by
  simp only [relate, engine, hp, shallowResolve_unresolved hu1, shallowResolve_unresolved hu2]
  simp [Bool.false_eq_true]

/-- Modelled from the spec (section 4.4): the covariant branch of the
binder relation — instantiate the second binder universally (placeholders
in a lazily created fresh universe) and the first existentially, push both
scopes, relate the two signatures with the ambient variance forced to
exactly covariant, then restore the ambient variance and pop both scopes;
an error of the body relation propagates as-is. -/
def covBranchSpec (p : Policy) (fuel : Nat) (i1 o1 i2 o2 : Ty) (s : RelState) : RRes Unit :=
  let cb := createScope true i2 o2 s
  let ca := createScope false i1 o1 cb.2
  let pushed := { ca.2 with
    bScopes := ca.2.bScopes ++ [cb.1]
    aScopes := ca.2.aScopes ++ [ca.1] }
  match engine p fuel (.sigC i1 o1 i2 o2) { pushed with ambient := .covariant } with
  | .ok _ s4 =>
    .ok () { s4 with
      ambient := pushed.ambient
      bScopes := s4.bScopes.dropLast
      aScopes := s4.aScopes.dropLast }
  | .err s4 => .err s4
  | .fatal code => .fatal code
  | .fuelOut => .fuelOut

/-- Modelled from the spec (section 4.4): the contravariant branch — the
mirror image, with the first binder universal, the second existential, and
the body related under exactly contravariant ambient variance. -/
def contraBranchSpec (p : Policy) (fuel : Nat) (i1 o1 i2 o2 : Ty) (s : RelState) : RRes Unit :=
  let ca := createScope true i1 o1 s
  let cb := createScope false i2 o2 ca.2
  let pushed := { cb.2 with
    aScopes := cb.2.aScopes ++ [ca.1]
    bScopes := cb.2.bScopes ++ [cb.1] }
  match engine p fuel (.sigC i1 o1 i2 o2) { pushed with ambient := .contravariant } with
  | .ok _ s4 =>
    .ok () { s4 with
      ambient := pushed.ambient
      bScopes := s4.bScopes.dropLast
      aScopes := s4.aScopes.dropLast }
  | .err s4 => .err s4
  | .fatal code => .fatal code
  | .fuelOut => .fuelOut

theorem createScope_ambient (uq : Bool) (input output : Ty) (s : RelState) :
    (createScope uq input output s).2.ambient = s.ambient :=
  (createScope_st uq input output s).2.2.1

/-- When the covariant branch succeeds it has restored the ambient variance
it found. -/
theorem covBranch_ok_ambient (recur : Call → RelState → RRes Ty)
    (i1 o1 i2 o2 : Ty) (s : RelState) (x : Unit) (t : RelState)
    (h : covBranch recur i1 o1 i2 o2 s = .ok x t) : t.ambient = s.ambient := by
  simp only [covBranch] at h
  split at h
  · cases h
    simp only []
    rw [createScope_ambient, createScope_ambient]
  · cases h
  · cases h
  · cases h

/-- Result-shape extractors used to state concrete counterexamples without
spelling out whole states. -/
def okValueOf : RRes Ty → Option Ty
  | .ok v _ => some v
  | _ => none

/-- The final state of a successful run. -/
def okStateOf : RRes Ty → Option RelState
  | .ok _ s => some s
  | _ => none

/-- The final state of a mismatch run. -/
def errStateOf : RRes Ty → Option RelState
  | .err s => some s
  | _ => none

/-- After `equate x y` the two variables share one equality root. -/
theorem equate_roots_eq (s : RelState) (x y : Nat)
    (hx : x < s.varTable.length) (hy : y < s.varTable.length) :
    rootVar (equate s x y) x = rootVar (equate s x y) y := by
  obtain ⟨rx, hrx⟩ : ∃ r, s.varTable.get? x = some r := by
    rw [List.get?_eq_get hx]
    exact ⟨_, rfl⟩
  obtain ⟨ry, hry⟩ : ∃ r, s.varTable.get? y = some r := by
    rw [List.get?_eq_get hy]
    exact ⟨_, rfl⟩
  have hx1 : rootVar s x = rx.eqRoot := by simp only [rootVar, hrx]
  have hy1 : rootVar s y = ry.eqRoot := by simp only [rootVar, hry]
  simp only [rootVar, equate, List.get?_map, hrx, hry, Option.map_some', hx1, hy1]
  simp [ite_self]

/-! ## The claims -/

/-- Claim C1, counterexample: a top-level `relate` of two binder types
whose bodies mismatch returns `Err` with both scope stacks one entry longer
than before the call — the `?` between the pushes and the pops of `binders`
skips the pops on the error path.  The input state has empty stacks. -/
theorem claim1_counterexample :
    ∃ s', relate ⟨.eager, true⟩ 10 (.fnPtr (.base 0) (.base 0)) (.fnPtr (.base 1) (.base 0))
        ⟨[], 0, 0, [], [], .covariant, [], []⟩ = .err s' ∧
      s'.aScopes.length = 1 ∧ s'.bScopes.length = 1 :=
  ⟨⟨[], 0, 0, [], [], .contravariant, [[]], [[]]⟩, by decide, rfl, rfl⟩

/-- Claim C1 as amended: every top-level `relate` call that returns `Ok`
leaves the lengths of `a_scopes` and `b_scopes` as it found them; a call
returning `Err` may instead leave the scopes pushed by `binders` on the
stacks (the pops are skipped by error propagation). -/
theorem claim1_theorem (p : Policy) (fuel : Nat) (a b : Ty) (s : RelState) (v : Ty)
    (s' : RelState) (h : relate p fuel a b s = .ok v s') :
    s'.aScopes.length = s.aScopes.length ∧ s'.bScopes.length = s.bScopes.length := by
  have hs := engine_ok_scopes p fuel (.relate a b) s v s' h
  rw [hs.1, hs.2]
  exact ⟨rfl, rfl⟩

/-- Witness for the amended claim C1, on a run that pushes and pops real
binder scopes. -/
theorem claim1_witness :
    (⟨[], 1, 1, [(.reVar 0, .rePlaceholder 0 3)], [], .covariant, [], []⟩ : RelState).aScopes.length =
      (⟨[], 0, 0, [], [], .covariant, [], []⟩ : RelState).aScopes.length ∧
    (⟨[], 1, 1, [(.reVar 0, .rePlaceholder 0 3)], [], .covariant, [], []⟩ : RelState).bScopes.length =
      (⟨[], 0, 0, [], [], .covariant, [], []⟩ : RelState).bScopes.length :=
  claim1_theorem ⟨.eager, false⟩ 12
    (.fnPtr (.ref (.reLateBound 0 3) (.base 0)) (.base 0))
    (.fnPtr (.ref (.reLateBound 0 3) (.base 0)) (.base 0))
    ⟨[], 0, 0, [], [], .covariant, [], []⟩
    (.fnPtr (.ref (.reLateBound 0 3) (.base 0)) (.base 0))
    ⟨[], 1, 1, [(.reVar 0, .rePlaceholder 0 3)], [], .covariant, [], []⟩
    (by decide)

/-- Claim C2, counterexample: the code's `relate_ty_var` clears only
`a_scopes`; the original value contains a bound region resolved through the
UNCLEARED `b_scopes` (the emitted outlives constraint names `reFree 9`,
which only the old `b` scope maps), while the spec-described variant that
clears both stacks panics on that same input (bound-region lookup in an
empty stack). -/
theorem claim2_counterexample :
    relateTyVarSpecClearBoth ⟨.eager, false⟩ 10 0 (.ref (.reLateBound 0 7) (.base 0))
        ⟨[⟨0, 0, none, 0⟩], 0, 0, [], [], .covariant,
          [[(7, .reFree 8)]], [[(7, .reFree 9)]]⟩ = .fatal 3 ∧
    relate_ty_var ⟨.eager, false⟩ 10 0 (.ref (.reLateBound 0 7) (.base 0))
        ⟨[⟨0, 0, none, 0⟩], 0, 0, [], [], .covariant,
          [[(7, .reFree 8)]], [[(7, .reFree 9)]]⟩ =
      .ok (.ref (.reVar 0) (.base 0))
        ⟨[⟨0, 0, some (.ref (.reVar 0) (.base 0)), 0⟩], 1, 0,
          [(.reFree 9, .reVar 0)], [], .covariant,
          [[(7, .reFree 8)]], [[(7, .reFree 9)]]⟩ :=
  ⟨by decide, by decide⟩

/-- Claim C2 as amended: `relate_ty_var` temporarily clears only `a_scopes`
around the re-relation of the generalized value and restores it on success
and on error alike; `b_scopes` is left in place (it is still needed to
resolve bound regions of the original value). -/
theorem claim2_theorem (p : Policy) (fuel : Nat) (vid : Nat) (value : Ty) (s : RelState) :
    (∀ v s', relate_ty_var p fuel vid value s = .ok v s' → s'.aScopes = s.aScopes) ∧
    (∀ s', relate_ty_var p fuel vid value s = .err s' → s'.aScopes = s.aScopes) :=
  ⟨fun v s' h => (engine_ok_scopes p fuel _ s v s' h).1,
   fun s' h => relateVar_err_aScopes p fuel vid value s s' h⟩

/-- Witness for the amended claim C2, on the run of the counterexample. -/
theorem claim2_witness :
    (⟨[⟨0, 0, some (.ref (.reVar 0) (.base 0)), 0⟩], 1, 0,
        [(.reFree 9, .reVar 0)], [], .covariant,
        [[(7, .reFree 8)]], [[(7, .reFree 9)]]⟩ : RelState).aScopes =
      (⟨[⟨0, 0, none, 0⟩], 0, 0, [], [], .covariant,
        [[(7, .reFree 8)]], [[(7, .reFree 9)]]⟩ : RelState).aScopes :=
  (claim2_theorem ⟨.eager, false⟩ 10 0 (.ref (.reLateBound 0 7) (.base 0)) _).1
    (.ref (.reVar 0) (.base 0)) _ (by decide)

/-- Claim C3: relating two quantified values dispatches on the ambient
variance exactly as specified — under bivariant variance neither branch
runs and the state (hence the obligation lists) is untouched; under
covariant variance only the covariant branch runs (the second binder
universal in a fresh universe, the first existential, both scopes pushed,
bodies under ambient variance forced to exactly covariant); under
contravariant variance only the mirror branch runs (forced to exactly
contravariant); under invariant variance both branches run in that order.
`covBranchSpec`/`contraBranchSpec` are the spec transcriptions of the two
branches. -/
theorem claim3_theorem (p : Policy) (fuel : Nat) (i1 o1 i2 o2 : Ty) (s : RelState) :
    (s.ambient = .bivariant →
      binders p (fuel + 1) i1 o1 i2 o2 s = .ok (.fnPtr i1 o1) s) ∧
    (s.ambient = .covariant →
      binders p (fuel + 1) i1 o1 i2 o2 s =
        match covBranchSpec p fuel i1 o1 i2 o2 s with
        | .ok _ t => .ok (.fnPtr i1 o1) t
        | .err t => .err t
        | .fatal code => .fatal code
        | .fuelOut => .fuelOut) ∧
    (s.ambient = .contravariant →
      binders p (fuel + 1) i1 o1 i2 o2 s =
        match contraBranchSpec p fuel i1 o1 i2 o2 s with
        | .ok _ u => .ok (.fnPtr i1 o1) u
        | .err u => .err u
        | .fatal code => .fatal code
        | .fuelOut => .fuelOut) ∧
    (s.ambient = .invariant →
      binders p (fuel + 1) i1 o1 i2 o2 s =
        match covBranchSpec p fuel i1 o1 i2 o2 s with
        | .ok _ t =>
          (match contraBranchSpec p fuel i1 o1 i2 o2 t with
           | .ok _ u => .ok (.fnPtr i1 o1) u
           | .err u => .err u
           | .fatal code => .fatal code
           | .fuelOut => .fuelOut)
        | .err t => .err t
        | .fatal code => .fatal code
        | .fuelOut => .fuelOut) := by
  refine ⟨?_, ?_, ?_, ?_⟩
  · intro hamb
    simp [binders, engine, hamb, ambientCovariance, ambientContravariance]
  · intro hamb
    have hcs : covBranchSpec p fuel i1 o1 i2 o2 s =
        covBranch (engine p fuel) i1 o1 i2 o2 s := rfl
    rw [hcs]
    simp only [binders, engine, hamb, ambientCovariance, eq_self_iff_true, if_true]
    cases hc : covBranch (engine p fuel) i1 o1 i2 o2 s with
    | ok x t =>
      have ht : t.ambient = Variance.covariant := by
        rw [covBranch_ok_ambient _ _ _ _ _ _ _ _ hc, hamb]
      simp [ht, ambientContravariance]
    | err t => rfl
    | fatal code => rfl
    | fuelOut => rfl
  · intro hamb
    have hcs : contraBranchSpec p fuel i1 o1 i2 o2 s =
        contraBranch (engine p fuel) i1 o1 i2 o2 s := rfl
    rw [hcs]
    simp [binders, engine, hamb, ambientCovariance, ambientContravariance]
  · intro hamb
    have hcs : covBranchSpec p fuel i1 o1 i2 o2 s =
        covBranch (engine p fuel) i1 o1 i2 o2 s := rfl
    rw [hcs]
    simp only [binders, engine, hamb, ambientCovariance, eq_self_iff_true, if_true]
    cases hc : covBranch (engine p fuel) i1 o1 i2 o2 s with
    | ok x t =>
      have ht : t.ambient = Variance.invariant := by
        rw [covBranch_ok_ambient _ _ _ _ _ _ _ _ hc, hamb]
      simp only [ht, ambientContravariance, eq_self_iff_true, if_true]
      rfl
    | err t => rfl
    | fatal code => rfl
    | fuelOut => rfl

/-- Witness for claim C3: the bivariant case at a concrete input leaves the
state untouched. -/
theorem claim3_witness :
    binders ⟨.eager, false⟩ 6 (.base 0) (.base 0) (.base 0) (.base 0)
        ⟨[], 0, 0, [], [], .bivariant, [], []⟩ =
      .ok (.fnPtr (.base 0) (.base 0)) ⟨[], 0, 0, [], [], .bivariant, [], []⟩ :=
  (claim3_theorem ⟨.eager, false⟩ 5 (.base 0) (.base 0) (.base 0) (.base 0)
    ⟨[], 0, 0, [], [], .bivariant, [], []⟩).1 rfl

/-- Claim C4: the region relation resolves both sides through their own
scope stacks, emits `outlives(resolved b, resolved a)` exactly when the
ambient variance has a covariant component and `outlives(resolved a,
resolved b)` exactly when it has a contravariant component (both under
invariant, neither under bivariant), never fails, and returns the left
input unchanged. -/
theorem claim4_theorem (a b : Region) (s : RelState) (va vb : Region)
    (ha : replaceBoundRegion a s.aScopes = some va)
    (hb : replaceBoundRegion b s.bScopes = some vb) :
    relateRegions a b s =
      .ok a { s with outlives := s.outlives ++
        ((if ambientCovariance s.ambient then [(vb, va)] else []) ++
         (if ambientContravariance s.ambient then [(va, vb)] else [])) } := by
  unfold relateRegions
  rw [ha, hb]
  cases hv : s.ambient <;>
    (simp [ambientCovariance, ambientContravariance, pushOutlives, hv]; try rw [← hv])

/-- Witness for claim C4 under invariant variance: both constraints are
emitted, in covariant-first order. -/
theorem claim4_witness :
    relateRegions (.reFree 1) (.reFree 2) ⟨[], 0, 0, [], [], .invariant, [], []⟩ =
      .ok (.reFree 1)
        { (⟨[], 0, 0, [], [], .invariant, [], []⟩ : RelState) with
          outlives := ([] : List (Region × Region)) ++
            ((if ambientCovariance .invariant then [(.reFree 2, .reFree 1)] else []) ++
             (if ambientContravariance .invariant then [(.reFree 1, .reFree 2)] else [])) } :=
  claim4_theorem (.reFree 1) (.reFree 2) ⟨[], 0, 0, [], [], .invariant, [], []⟩
    (.reFree 1) (.reFree 2) rfl rfl

/-- Claim C5: under lazy normalization, relating a projection against a
non-projection value pushes exactly one `ProjectionEq` goal and returns the
value unchanged; relating a projection against another projection allocates
one fresh variable `u`, pushes exactly the two goals `P1 = u` and `P2 = u`
(never a direct `P1 = P2` goal — both pushed goals have the fresh variable,
not a projection, on the right), and returns `u`; the operation is total. -/
theorem claim5_theorem (item : Nat) (receiver v : Ty) (s : RelState) :
    ((∀ i2 r2, v ≠ .proj i2 r2) →
      relateProjectionTy item receiver v s =
        (v, { s with goals := s.goals ++ [(.proj item receiver, v)] })) ∧
    (∀ i2 r2, v = .proj i2 r2 →
      relateProjectionTy item receiver v s =
        (.tvar s.varTable.length,
         { s with
           varTable := s.varTable ++
             [⟨s.varTable.length, s.varTable.length, none, 0⟩]
           goals := s.goals ++
             [(.proj item receiver, .tvar s.varTable.length),
              (.proj i2 r2, .tvar s.varTable.length)] })) := by
  constructor
  · intro hnp
    cases v <;>
      first
      | exact absurd rfl (hnp _ _)
      | simp [relateProjectionTy, pushGoal]
  · intro i2 r2 hv
    subst hv
    simp [relateProjectionTy, newTyVar, pushGoal, List.append_assoc]

/-- Witness for claim C5, both cases at concrete inputs. -/
theorem claim5_witness :
    relateProjectionTy 0 (.base 1) (.base 3) ⟨[], 0, 0, [], [], .covariant, [], []⟩ =
      ((.base 3), { (⟨[], 0, 0, [], [], .covariant, [], []⟩ : RelState) with
        goals := ([] : List (Ty × Ty)) ++ [(.proj 0 (.base 1), .base 3)] }) ∧
    relateProjectionTy 0 (.base 1) (.proj 2 (.base 4))
        ⟨[], 0, 0, [], [], .covariant, [], []⟩ =
      (.tvar 0,
       { (⟨[], 0, 0, [], [], .covariant, [], []⟩ : RelState) with
         varTable := ([] : List VarRecord) ++ [⟨0, 0, none, 0⟩]
         goals := ([] : List (Ty × Ty)) ++
           [(.proj 0 (.base 1), .tvar 0), (.proj 2 (.base 4), .tvar 0)] }) :=
  ⟨(claim5_theorem 0 (.base 1) (.base 3) _).1 (fun i2 r2 h => by cases h),
   (claim5_theorem 0 (.base 1) (.proj 2 (.base 4)) _).2 2 (.base 4) rfl⟩

/-- Claim C6: the generalizer's occurs check.  Reaching a type variable
whose subtyping root equals the excluded variable's subtyping root fails
with a mismatch error (leaving the state untouched); and when no such
variable (and no universe-violating placeholder, the only other mismatch
source) is reachable through the traversal, the generalizer never returns
a mismatch error. -/
theorem claim6_theorem (p : Policy) (hp : p.forbidInferenceVars = false) :
    (∀ (fuel : Nat) (ctx : GenCtx) (vid : Nat) (s : RelState),
      subRootVar s (rootVar s vid) = ctx.forVidSubRoot →
      genTys p (fuel + 1) ctx (.tvar vid) s = .err s) ∧
    (∀ (fuel : Nat) (ctx : GenCtx) (t : Ty) (s : RelState),
      occursFree s ctx.forVidSubRoot fuel t = true →
      placeholderSafe s ctx.uni fuel t = true →
      ∀ s', genTys p fuel ctx t s ≠ .err s') := by
  constructor
  · intro fuel ctx vid s hsub
    simp only [genTys, hp]
    rw [if_neg (by simp), if_pos hsub]
  · exact genTys_no_err p hp

/-- Witness for claim C6: a direct occurrence fails, an occurrence-free
value does not. -/
theorem claim6_witness :
    genTys ⟨.eager, false⟩ 3 ⟨0, 0, 0, .covariant⟩ (.tvar 0)
        ⟨[⟨0, 0, none, 0⟩], 0, 0, [], [], .covariant, [], []⟩ =
      .err ⟨[⟨0, 0, none, 0⟩], 0, 0, [], [], .covariant, [], []⟩ ∧
    genTys ⟨.eager, false⟩ 3 ⟨0, 5, 0, .covariant⟩ (.base 9)
        ⟨[⟨0, 0, none, 0⟩], 0, 0, [], [], .covariant, [], []⟩ ≠
      .err ⟨[⟨0, 0, none, 0⟩], 0, 0, [], [], .covariant, [], []⟩ :=
  ⟨(claim6_theorem ⟨.eager, false⟩ rfl).1 2 ⟨0, 0, 0, .covariant⟩ 0 _ (by decide),
   (claim6_theorem ⟨.eager, false⟩ rfl).2 3 ⟨0, 5, 0, .covariant⟩ (.base 9) _
     (by decide) (by decide) _⟩

/-- Claim C7: generalizing a placeholder of universe `u2` with the excluded
variable in universe `ctx.uni` returns the placeholder unchanged when
`ctx.uni` can name `u2`, and fails with a mismatch error exactly when it
cannot (`u2` strictly newer than `ctx.uni`). -/
theorem claim7_theorem (p : Policy) (fuel : Nat) (ctx : GenCtx) (u2 name : Nat)
    (s : RelState) :
    genTys p (fuel + 1) ctx (.placeholder u2 name) s =
      if ctx.uni < u2 then .err s else .ok (.placeholder u2 name) s := by
  simp only [genTys]

/-- Claim C8: relating two unresolved type variables (forbid policy off)
returns one of the two variables, the result state is exactly the
`equate` of the two variables — their equality roots coincide afterwards —
and nothing else changes (no variables allocated, no region variables, no
universes, no obligations: the generalizer is never consulted). -/
theorem claim8_theorem (p : Policy) (hp : p.forbidInferenceVars = false) (fuel : Nat)
    (v1 v2 : Nat) (s : RelState)
    (h1 : v1 < s.varTable.length) (h2 : v2 < s.varTable.length)
    (hu1 : probe s v1 = none) (hu2 : probe s v2 = none) :
    relate p (fuel + 2) (.tvar v1) (.tvar v2) s = .ok (.tvar v1) (equate s v2 v1) ∧
    rootVar (equate s v2 v1) v1 = rootVar (equate s v2 v1) v2 ∧
    (equate s v2 v1).varTable.length = s.varTable.length ∧
    (equate s v2 v1).outlives = s.outlives ∧
    (equate s v2 v1).goals = s.goals ∧
    (equate s v2 v1).nextRegionVar = s.nextRegionVar ∧
    (equate s v2 v1).nextUniverse = s.nextUniverse :=
  ⟨relate_unresolved_vars_eq p hp fuel v1 v2 s hu1 hu2,
   (equate_roots_eq s v2 v1 h2 h1).symm,
   by simp [equate], by simp [equate], by simp [equate], by simp [equate],
   by simp [equate]⟩

/-- Witness for claim C8 at a concrete two-variable state. -/
theorem claim8_witness :
    relate ⟨.eager, false⟩ 5 (.tvar 0) (.tvar 1)
        ⟨[⟨0, 0, none, 0⟩, ⟨1, 1, none, 4⟩], 0, 0, [], [], .invariant, [], []⟩ =
      .ok (.tvar 0)
        (equate ⟨[⟨0, 0, none, 0⟩, ⟨1, 1, none, 4⟩], 0, 0, [], [], .invariant, [], []⟩ 1 0) ∧
    rootVar (equate ⟨[⟨0, 0, none, 0⟩, ⟨1, 1, none, 4⟩], 0, 0, [], [], .invariant, [], []⟩ 1 0) 0 =
      rootVar (equate ⟨[⟨0, 0, none, 0⟩, ⟨1, 1, none, 4⟩], 0, 0, [], [], .invariant, [], []⟩ 1 0) 1 :=
  ⟨(claim8_theorem ⟨.eager, false⟩ rfl 3 0 1
      ⟨[⟨0, 0, none, 0⟩, ⟨1, 1, none, 4⟩], 0, 0, [], [], .invariant, [], []⟩
      (by decide) (by decide) (by decide) (by decide)).1,
   (claim8_theorem ⟨.eager, false⟩ rfl 3 0 1
      ⟨[⟨0, 0, none, 0⟩, ⟨1, 1, none, 4⟩], 0, 0, [], [], .invariant, [], []⟩
      (by decide) (by decide) (by decide) (by decide)).2.1⟩

/-- Claim C9, counterexample: relating an unresolved variable against a
structural type returns the freshly generalized value — here
`ref (reVar 0) (base 0)`, which contains a freshly minted existential
region — and that value is neither of the two inputs. -/
theorem claim9_counterexample :
    okValueOf (relate ⟨.eager, false⟩ 10 (.tvar 0) (.ref (.reFree 5) (.base 0))
        ⟨[⟨0, 0, none, 0⟩], 0, 0, [], [], .covariant, [], []⟩) =
      some (.ref (.reVar 0) (.base 0)) ∧
    (Ty.ref (.reVar 0) (.base 0)) ≠ .tvar 0 ∧
    (Ty.ref (.reVar 0) (.base 0)) ≠ .ref (.reFree 5) (.base 0) :=
  ⟨by decide, by decide, by decide⟩

/-- Claim C9 as amended: for regions the relation always returns the left
input; relating two unresolved variables returns one of the two inputs;
but when a variable is related against a structural value the engine
returns the re-relation result of the freshly generalized value, which may
be neither input. -/
theorem claim9_theorem :
    (∀ (a b : Region) (s : RelState) (va vb : Region),
      replaceBoundRegion a s.aScopes = some va →
      replaceBoundRegion b s.bScopes = some vb →
      ∃ s', relateRegions a b s = .ok a s') ∧
    (∀ (p : Policy), p.forbidInferenceVars = false →
      ∀ (fuel v1 v2 : Nat) (s : RelState), probe s v1 = none → probe s v2 = none →
        relate p (fuel + 2) (.tvar v1) (.tvar v2) s = .ok (.tvar v1) (equate s v2 v1)) := by
  constructor
  · intro a b s va vb ha hb
    unfold relateRegions
    rw [ha, hb]
    exact ⟨_, rfl⟩
  · intro p hp fuel v1 v2 s hu1 hu2
    exact relate_unresolved_vars_eq p hp fuel v1 v2 s hu1 hu2

/-- Witness for the amended claim C9. -/
theorem claim9_witness :
    (∃ s', relateRegions (.reFree 3) (.reFree 4)
        ⟨[], 0, 0, [], [], .covariant, [], []⟩ = .ok (.reFree 3) s') ∧
    relate ⟨.lazy, false⟩ 6 (.tvar 0) (.tvar 1)
        ⟨[⟨0, 0, none, 2⟩, ⟨1, 1, none, 3⟩], 0, 0, [], [], .covariant, [], []⟩ =
      .ok (.tvar 0)
        (equate ⟨[⟨0, 0, none, 2⟩, ⟨1, 1, none, 3⟩], 0, 0, [], [], .covariant, [], []⟩ 1 0) :=
  ⟨claim9_theorem.1 (.reFree 3) (.reFree 4) ⟨[], 0, 0, [], [], .covariant, [], []⟩
      (.reFree 3) (.reFree 4) rfl rfl,
   claim9_theorem.2 ⟨.lazy, false⟩ rfl 4 0 1
      ⟨[⟨0, 0, none, 2⟩, ⟨1, 1, none, 3⟩], 0, 0, [], [], .covariant, [], []⟩
      (by decide) (by decide)⟩

/-- Claim C10: with the forbid-inference-vars policy on, an unresolved type
variable on the right-hand side aborts with the contract-violation code 0;
any type/integral/floating inference variable met by the generalizer aborts
with code 1; these aborts are a different outcome from the recoverable
mismatch error; and when the caller's guarantee holds (the right-hand side
really contains no inference variable) none of the contract-violation
aborts (codes 0, 1, 2) is reachable anywhere in the run. -/
theorem claim10_theorem (p : Policy) (hp : p.forbidInferenceVars = true) :
    (∀ (fuel : Nat) (a : Ty) (vid : Nat) (s : RelState),
      relate p (fuel + 1) a (.tvar vid) s = .fatal 0) ∧
    (∀ (fuel : Nat) (ctx : GenCtx) (v : Nat) (s : RelState),
      genTys p (fuel + 1) ctx (.tvar v) s = .fatal 1) ∧
    (∀ (fuel : Nat) (ctx : GenCtx) (n : Nat) (s : RelState),
      genTys p (fuel + 1) ctx (.intVar n) s = .fatal 1 ∧
      genTys p (fuel + 1) ctx (.floatVar n) s = .fatal 1) ∧
    (∀ (s' : RelState) (code : Nat), (RRes.fatal code : RRes Ty) ≠ .err s') ∧
    (∀ (fuel : Nat) (a b : Ty) (s : RelState) (k : Nat),
      k < 3 → hasInferTypes b = false → relate p fuel a b s ≠ .fatal k) := by
  refine ⟨?_, ?_, ?_, ?_, ?_⟩
  · intro fuel a vid s
    simp only [relate, engine]
    cases shallowResolve s a <;> simp [hp]
  · intro fuel ctx v s
    simp [genTys, hp]
  · intro fuel ctx n s
    exact ⟨by simp [genTys, hp], by simp [genTys, hp]⟩
  · intro s' code h
    cases h
  · intro fuel a b s k hk hfree
    exact engine_no_low_fatal p hp fuel (.relate a b) s k hk
      (by simp [rhsOk, hfree])

/-- Witness for claim C10 at concrete inputs. -/
theorem claim10_witness :
    relate ⟨.eager, true⟩ 4 (.base 0) (.tvar 3)
        ⟨[], 0, 0, [], [], .covariant, [], []⟩ = .fatal 0 ∧
    genTys ⟨.eager, true⟩ 4 ⟨0, 0, 0, .covariant⟩ (.tvar 1)
        ⟨[], 0, 0, [], [], .covariant, [], []⟩ = .fatal 1 ∧
    relate ⟨.eager, true⟩ 9 (.base 0) (.base 1)
        ⟨[], 0, 0, [], [], .covariant, [], []⟩ ≠ .fatal 0 :=
  ⟨(claim10_theorem ⟨.eager, true⟩ rfl).1 3 (.base 0) 3 _,
   (claim10_theorem ⟨.eager, true⟩ rfl).2.1 3 ⟨0, 0, 0, .covariant⟩ 1 _,
   (claim10_theorem ⟨.eager, true⟩ rfl).2.2.2.2 9 (.base 0) (.base 1)
     ⟨[], 0, 0, [], [], .covariant, [], []⟩ 0 (by decide) (by decide)⟩

end Nll
